import Mathlib

/-! # Verification of the blob-arena game server (`app.py`)

A shallow embedding of the server's game state and of the handlers and
tick-loop stages of `app.py`.  Python floats are modelled as real numbers;
the random number generator and the transport-assigned session ids are
modelled as explicit parameters (oracles).  The `players` dict is modelled
as a list of `Player` records in insertion order (Python dicts preserve
insertion order, and overwriting a key keeps its position); the `food`
list is a list of `Pellet` records indexed positionally, matching the
index-based bookkeeping of the food-consumption stage.
-/

noncomputable section

/-- `MAP_WIDTH = 2000` (line 8). -/
def MAP_WIDTH : ℝ := 2000

/-- `MAP_HEIGHT = 2000` (line 9). -/
def MAP_HEIGHT : ℝ := 2000

/-- `INITIAL_PLAYER_SIZE = 20` (line 10). -/
def INITIAL_PLAYER_SIZE : ℝ := 20

/-- `FOOD_COUNT = 150` (line 11); it is only used as a count. -/
def FOOD_COUNT : ℕ := 150

/-- `FOOD_SIZE = 8` (line 12). -/
def FOOD_SIZE : ℝ := 8

/-- `PLAYER_SPEED_FACTOR = 8` (line 13). -/
def PLAYER_SPEED_FACTOR : ℝ := 8

/-- The constant `EAT_RATIO = 1.1` (line 14). -/
def EAT_RATIO : ℝ := 1.1

/-- A player record (line 24 and lines 84-93).  The Python string `name` is
modelled as a list of characters; `color` is an opaque display attribute. -/
structure Player where
  id : ℕ
  name : List Char
  x : ℝ
  y : ℝ
  size : ℝ
  color : ℕ
  target_x : ℝ
  target_y : ℝ

/-- A food pellet record (lines 34-41). -/
structure Pellet where
  id : ℕ
  x : ℝ
  y : ℝ
  size : ℝ
  color : ℕ

/-- `get_distance` (lines 46-49), on the coordinates of the two objects. -/
def get_distance (x1 y1 x2 y2 : ℝ) : ℝ :=
  Real.sqrt ((x1 - x2) * (x1 - x2) + (y1 - y2) * (y1 - y2))

/-- Line 80: `name = data.get('name', 'Blob')[:15]`.  `none` models a `join`
payload with no `name` field at all. -/
def joinName (nameField : Option (List Char)) : List Char :=
  (nameField.getD ("Blob".toList)).take 15

/-- The player record built by `handle_join` (lines 84-93).  The random spawn
coordinates and the random color are passed in as oracle values `rx ry c`. -/
def join_player (sid : ℕ) (nameField : Option (List Char)) (rx ry : ℝ) (c : ℕ) : Player :=
  ⟨sid, joinName nameField, rx, ry, INITIAL_PLAYER_SIZE, c, 0, 0⟩

/-- `handle_join` (lines 76-94): `players[sid] = player` inserts a fresh player,
overwriting in place any existing entry with the same session id. -/
def handle_join (ps : List Player) (sid : ℕ) (nameField : Option (List Char))
    (rx ry : ℝ) (c : ℕ) : List Player :=
  if ps.any (fun q => q.id == sid) then
    ps.map (fun q => if q.id = sid then join_player sid nameField rx ry c else q)
  else ps ++ [join_player sid nameField rx ry c]

/-- `handle_disconnect` (lines 67-74): `players.pop(request.sid, None)`; the
boolean records whether a `player_left` event is emitted. -/
def handle_disconnect (ps : List Player) (sid : ℕ) : List Player × Bool :=
  (ps.filter (fun p => p.id != sid), ps.any (fun p => p.id == sid))

/-- `handle_player_move` (lines 106-113): overwrite the target direction if the
player still exists, otherwise a no-op. -/
def handle_player_move (ps : List Player) (sid : ℕ) (dx dy : ℝ) : List Player :=
  ps.map (fun p => if p.id = sid then { p with target_x := dx, target_y := dy } else p)

/-- Line 138: `speed = PLAYER_SPEED_FACTOR / (1 + math.log1p(size / INITIAL_PLAYER_SIZE))`,
where `log1p z = log (1 + z)`. -/
def speed_of (size : ℝ) : ℝ :=
  PLAYER_SPEED_FACTOR / (1 + Real.log (1 + size / INITIAL_PLAYER_SIZE))

/-- Tick stage 1 (lines 124-145): movement and map bounds for one player. -/
def movePlayer (p : Player) : Player :=
  let distance_to_target := Real.sqrt (p.target_x ^ 2 + p.target_y ^ 2)
  let direction_x := if distance_to_target > 1 then p.target_x / distance_to_target else 0
  let direction_y := if distance_to_target > 1 then p.target_y / distance_to_target else 0
  let new_x := p.x + direction_x * speed_of p.size
  let new_y := p.y + direction_y * speed_of p.size
  { p with
    x := max (p.size / 2) (min (MAP_WIDTH - p.size / 2) new_x),
    y := max (p.size / 2) (min (MAP_HEIGHT - p.size / 2) new_y) }

/-- Tick stage 2, inner loop (lines 151-158), for one player: scan the pellets
by index, skipping indices already marked eaten this tick.  `radius` is
computed once per player (line 151, `player_radius = player['size'] / 2`) and
is not recomputed as the player's size grows during its own scan. -/
def foodInner (px py radius : ℝ) (size : ℝ) (i : ℕ) (fs : List Pellet)
    (eaten : List ℕ) : ℝ × List ℕ :=
  match fs with
  | [] => (size, eaten)
  | f :: rest =>
    if i ∈ eaten then foodInner px py radius size (i + 1) rest eaten
    else if get_distance px py f.x f.y < radius - f.size / 3 then
      foodInner px py radius (size + f.size * 0.2) (i + 1) rest (i :: eaten)
    else foodInner px py radius size (i + 1) rest eaten

/-- Tick stage 2 (lines 148-158): each live player in order scans the pellet
list, threading the set of eaten pellet indices.  The guard on line 149
(`if sid in players_to_remove: continue`) is vacuous at this point of the
tick because `players_to_remove` is still empty, so it is not modelled. -/
def eatFoodStage (ps : List Player) (food : List Pellet) (eaten : List ℕ) :
    List Player × List ℕ :=
  match ps with
  | [] => ([], eaten)
  | p :: rest =>
    let r := foodInner p.x p.y (p.size / 2) p.size 0 food eaten
    let s := eatFoodStage rest food r.2
    ({ p with size := r.1 } :: s.1, s.2)

/-- The consumption condition of lines 178 and 183:
`dist < radius_a - radius_b * 0.8 and player_a['size'] > player_b['size'] * EAT_RATIO`,
with `radius_a = player_a['size'] / 2` and `radius_b = player_b['size'] / 2`. -/
def consumes (a b : Player) : Prop :=
  get_distance a.x a.y b.x b.y < a.size / 2 - b.size / 2 * 0.8
    ∧ a.size > b.size * EAT_RATIO

open Classical in
/-- Tick stage 3, inner loop (lines 168-188), for consumer `a` against the
players after it in id order.  Returns `a`'s final value, the updated tail
(one entry of which may have grown by eating `a`), and the updated removal
set.  When `a` eats `b`, `a`'s increased size is used for the remaining
comparisons; when `b` eats `a` the loop breaks (line 188). -/
def innerEat (a : Player) (rest : List Player) (removed : List ℕ) :
    Player × { l : List Player // l.length = rest.length } × List ℕ :=
  match rest with
  | [] => (a, ⟨[], rfl⟩, removed)
  | b :: rest0 =>
    if b.id ∈ removed then
      let r := innerEat a rest0 removed
      (r.1, ⟨b :: r.2.1.1, by simp [r.2.1.2]⟩, r.2.2)
    else if consumes a b then
      let r := innerEat { a with size := a.size + b.size } rest0 (b.id :: removed)
      (r.1, ⟨b :: r.2.1.1, by simp [r.2.1.2]⟩, r.2.2)
    else if consumes b a then
      (a, ⟨{ b with size := b.size + a.size } :: rest0, rfl⟩, a.id :: removed)
    else
      let r := innerEat a rest0 removed
      (r.1, ⟨b :: r.2.1.1, by simp [r.2.1.2]⟩, r.2.2)

open Classical in
/-- Tick stage 3, outer loop (lines 161-188): every live player in turn acts
as consumer against the players after it, unless already marked removed. -/
def outerEat (ps : List Player) (removed : List ℕ) : List Player × List ℕ :=
  match ps with
  | [] => ([], removed)
  | a :: rest =>
    if a.id ∈ removed then
      let r := outerEat rest removed
      (a :: r.1, r.2)
    else
      let r := innerEat a rest removed
      let s := outerEat r.2.1.1 r.2.2
      (r.1 :: s.1, s.2)
termination_by ps.length
decreasing_by
all_goals simp only [List.length_cons]
· omega
· exact Nat.lt_succ_of_le (le_of_eq (innerEat _ _ _).2.1.2)

/-- Tick stages 3 and 4 combined: run the pair pass, then delete every player
marked removed from the store (lines 190-197). -/
def playerStage (ps : List Player) : List Player :=
  let r := outerEat ps []
  r.1.filter (fun p => decide (p.id ∉ r.2))

/-- `generate_food` (lines 31-41): append `FOOD_COUNT - len(food)` pellets,
whose random data is supplied by the oracle `fresh`. -/
def generate_food (fresh : ℕ → Pellet) (food : List Pellet) : List Pellet :=
  food ++ (List.range (FOOD_COUNT - food.length)).map fresh

/-- Line 202: keep only the pellets whose index was not marked eaten. -/
def removeEatenFood (food : List Pellet) (eaten : List ℕ) : List Pellet :=
  (food.enum.filter (fun e => decide (e.1 ∉ eaten))).map (fun e => e.2)

/-- One iteration of `game_loop` (lines 116-213): movement, food consumption,
player consumption, removal, food repopulation.  The returned pair is the
`game_update` snapshot broadcast at the end of the tick (lines 205-210). -/
def tick (ps : List Player) (food : List Pellet) (fresh : ℕ → Pellet) :
    List Player × List Pellet :=
  let moved := ps.map movePlayer
  let fed := eatFoodStage moved food []
  let survivors := playerStage fed.1
  let food2 := if fed.2 ≠ [] then generate_food fresh (removeEatenFood food fed.2) else food
  (survivors, food2)

/-- The spec's bounds invariant for a player, stated from the spec's words:
`position.x ∈ [size/2, mapWidth - size/2]` and similarly for `y`. -/
def inBounds (p : Player) : Prop :=
  p.size / 2 ≤ p.x ∧ p.x ≤ MAP_WIDTH - p.size / 2
    ∧ p.size / 2 ≤ p.y ∧ p.y ≤ MAP_HEIGHT - p.size / 2

/-- Relates a pre-stage player to its post-stage value: same identity and the
size did not decrease. -/
def sizeRel (p q : Player) : Prop :=
  p.id = q.id ∧ p.size ≤ q.size

/-- A size-20 player sitting on the left map edge. -/
def pEdge : Player := ⟨1, [], 10, 100, 20, 0, 0, 0⟩

/-- A pellet at the same position as `pEdge`. -/
def fEdge : Pellet := ⟨7, 10, 100, 8, 0⟩

/-- A size-8 pellet at (100,100), for the spec's Scenario 1. -/
def fCenter : Pellet := ⟨8, 100, 100, 8, 0⟩

/-- `pEdge` after eating `fEdge`. -/
def qEdge : Player := ⟨1, [], 10, 100, 20 + 8 * 0.2, 0, 0, 0⟩

/-- A food oracle. -/
def fresh0 : ℕ → Pellet := fun _ => fEdge

/-- Scenario players: `pA` size 100 at (100,100), `pB` size 50 at (120,100). -/
def pA : Player := ⟨1, [], 100, 100, 100, 0, 0, 0⟩

/-- See `pA`. -/
def pB : Player := ⟨2, [], 120, 100, 50, 0, 0, 0⟩

/-- A size-20 player with movement intent (10, 0). -/
def pMove : Player := ⟨3, [], 100, 100, 20, 0, 10, 0⟩

/-- A size-50 player with session id 1. -/
def pBig : Player := ⟨1, [], 100, 100, 50, 0, 0, 0⟩

theorem sqrt_four_hundred : Real.sqrt 400 = 20 := by
  rw [show (400 : ℝ) = 20 ^ 2 by norm_num, Real.sqrt_sq (by norm_num : (0 : ℝ) ≤ 20)]

theorem sqrt_one_hundred : Real.sqrt 100 = 10 := by
  rw [show (100 : ℝ) = 10 ^ 2 by norm_num, Real.sqrt_sq (by norm_num : (0 : ℝ) ≤ 10)]

theorem join_player_mem (ps : List Player) (sid : ℕ) (nf : Option (List Char))
    (rx ry : ℝ) (c : ℕ) :
    join_player sid nf rx ry c ∈ handle_join ps sid nf rx ry c := by
  unfold handle_join
  split
  · rename_i h
    rcases List.any_eq_true.mp h with ⟨q, hq, he⟩
    have hid : q.id = sid := by simpa using he
    exact List.mem_map.mpr ⟨q, hq, by simp [hid]⟩
  · simp

/-- Claim C9: `Leave` is idempotent — a second disconnect for the same id
leaves the store as after the first and emits no second `player_left`. -/
theorem claim_C9 (ps : List Player) (sid : ℕ) :
    (handle_disconnect (handle_disconnect ps sid).1 sid).1 = (handle_disconnect ps sid).1
      ∧ (handle_disconnect (handle_disconnect ps sid).1 sid).2 = false := by
  constructor
  · simp [handle_disconnect, List.filter_filter]
  · rw [Bool.eq_false_iff]
    intro h
    rcases List.any_eq_true.mp h with ⟨p, hp, he⟩
    rcases List.mem_filter.mp hp with ⟨_, hne⟩
    simp_all [handle_disconnect]

/-- Claim C8 counterexample: a `join` whose `name` field is present but is the
empty string stores the empty name, not the default `"Blob"`. -/
theorem claim_C8_counterexample :
    joinName (some []) = [] ∧ ([] : List Char) ≠ "Blob".toList
      ∧ (join_player 9 (some []) 0 0 0).name = [] :=
  ⟨rfl, by decide, rfl⟩

/-- Claim C8 (amended): the stored name is the supplied name truncated to 15
characters, and defaults to `"Blob"` only when the name field is absent; an
empty supplied string is stored as the empty name. -/
theorem claim_C8 (s : List Char) (nf : Option (List Char)) (ps : List Player)
    (sid : ℕ) (rx ry : ℝ) (c : ℕ) :
    joinName none = "Blob".toList
      ∧ joinName (some s) = s.take 15
      ∧ (joinName nf).length ≤ 15
      ∧ (join_player sid nf rx ry c).name = joinName nf
      ∧ join_player sid nf rx ry c ∈ handle_join ps sid nf rx ry c := by
  refine ⟨by decide, rfl, ?_, rfl, join_player_mem ps sid nf rx ry c⟩
  cases nf with
  | none => decide
  | some t =>
    simp only [joinName, Option.getD_some, List.length_take]
    exact Nat.min_le_left 15 t.length

/-- Claim C7 counterexample: a second `join` for a session that already has a
live player is not a no-op — the existing player's state is replaced. -/
theorem claim_C7_counterexample :
    handle_join [pBig] 1 (some ['Z']) 5 5 2 ≠ [pBig] := by
  intro h
  have h2 := congrArg (fun l => l.map (fun p => p.size)) h
  simp [handle_join, pBig, join_player, INITIAL_PLAYER_SIZE] at h2

/-- Claim C7 (amended): a `join` for a sessionId that already has a live player
overwrites that entry in place with a freshly spawned player (it is not a
no-op), and there is always exactly one Player entry per live session. -/
theorem claim_C7 (ps : List Player) (sid : ℕ) (nf : Option (List Char))
    (rx ry : ℝ) (c : ℕ) (hn : (ps.map (fun p => p.id)).Nodup) :
    ((handle_join ps sid nf rx ry c).map (fun p => p.id)).Nodup
      ∧ (sid ∈ ps.map (fun p => p.id) →
          (handle_join ps sid nf rx ry c).map (fun p => p.id) = ps.map (fun p => p.id))
      ∧ ((handle_join ps sid nf rx ry c).map (fun p => p.id)).count sid = 1
      ∧ join_player sid nf rx ry c ∈ handle_join ps sid nf rx ry c := by
  by_cases hmem : sid ∈ ps.map (fun p => p.id)
  · have hany : ps.any (fun q => q.id == sid) = true := by
      rcases List.mem_map.mp hmem with ⟨q, hq, hid⟩
      exact List.any_eq_true.mpr ⟨q, hq, by simp [hid]⟩
    have hids : (handle_join ps sid nf rx ry c).map (fun p => p.id) =
        ps.map (fun p => p.id) := by
      rw [handle_join, if_pos hany, List.map_map]
      refine List.map_congr_left ?_
      intro q _
      by_cases hq : q.id = sid
      · simp [hq, join_player]
      · simp [hq]
    rw [hids]
    exact ⟨hn, fun _ => rfl, List.count_eq_one_of_mem hn hmem,
      join_player_mem ps sid nf rx ry c⟩
  · have hany : ps.any (fun q => q.id == sid) = false := by
      rw [Bool.eq_false_iff]
      intro h
      rcases List.any_eq_true.mp h with ⟨q, hq, he⟩
      exact hmem (List.mem_map.mpr ⟨q, hq, by simpa using he⟩)
    have hids : (handle_join ps sid nf rx ry c).map (fun p => p.id) =
        ps.map (fun p => p.id) ++ [sid] := by
      rw [handle_join, if_neg (by simp [hany])]
      simp [join_player]
    rw [hids]
    refine ⟨?_, fun h => absurd h hmem, ?_, join_player_mem ps sid nf rx ry c⟩
    · exact List.Nodup.append hn (List.nodup_singleton sid) (by simpa using hmem)
    · simp [List.count_append, List.count_eq_zero.mpr hmem]

/-- Claim C7 witness: rejoining session 1 (held by `pBig`) keeps exactly one
entry for id 1, with the fresh player stored. -/
theorem claim_C7_witness :
    ((handle_join [pBig] 1 none 100 100 0).map (fun p => p.id)).Nodup
      ∧ (handle_join [pBig] 1 none 100 100 0).map (fun p => p.id) =
          [pBig].map (fun p => p.id)
      ∧ ((handle_join [pBig] 1 none 100 100 0).map (fun p => p.id)).count 1 = 1
      ∧ join_player 1 none 100 100 0 ∈ handle_join [pBig] 1 none 100 100 0 := by
  have hn : ([pBig].map (fun p => p.id)).Nodup := by simp
  have hm : 1 ∈ [pBig].map (fun p => p.id) := by simp [pBig]
  have h := claim_C7 [pBig] 1 none 100 100 0 hn
  exact ⟨h.1, h.2.1 hm, h.2.2.1, h.2.2.2⟩

/-- Claim C5 counterexample: command intake can decrease a live player's size —
a rejoin for session 1 resets `pBig`'s size from 50 to 20. -/
theorem claim_C5_counterexample :
    (handle_join [pBig] 1 none 100 100 0).map (fun p => p.size) = [INITIAL_PLAYER_SIZE]
      ∧ ¬ (pBig.size ≤ INITIAL_PLAYER_SIZE) := by
  constructor
  · simp [handle_join, pBig, join_player]
  · norm_num [pBig, INITIAL_PLAYER_SIZE]

/-- Claim C2: movement — direction is normalized when the intent's magnitude
exceeds 1 and is zero otherwise (dead-zone), speed is
`PLAYER_SPEED_FACTOR / (1 + ln (1 + size / INITIAL_PLAYER_SIZE))` and is
strictly positive for positive sizes, and the new position is the old position
plus direction times speed, clamped per axis to `[size/2, mapDim - size/2]`
(so an in-bounds player with a dead-zone intent does not move). -/
theorem claim_C2 (p : Player) :
    (0 < p.size → 0 < speed_of p.size)
      ∧ (Real.sqrt (p.target_x ^ 2 + p.target_y ^ 2) ≤ 1 →
          (movePlayer p).x = max (p.size / 2) (min (MAP_WIDTH - p.size / 2) p.x)
            ∧ (movePlayer p).y = max (p.size / 2) (min (MAP_HEIGHT - p.size / 2) p.y))
      ∧ (Real.sqrt (p.target_x ^ 2 + p.target_y ^ 2) ≤ 1 →
          p.size / 2 ≤ p.x → p.x ≤ MAP_WIDTH - p.size / 2 →
          p.size / 2 ≤ p.y → p.y ≤ MAP_HEIGHT - p.size / 2 →
          (movePlayer p).x = p.x ∧ (movePlayer p).y = p.y)
      ∧ (1 < Real.sqrt (p.target_x ^ 2 + p.target_y ^ 2) →
          (movePlayer p).x = max (p.size / 2) (min (MAP_WIDTH - p.size / 2)
              (p.x + p.target_x / Real.sqrt (p.target_x ^ 2 + p.target_y ^ 2)
                * speed_of p.size))
            ∧ (movePlayer p).y = max (p.size / 2) (min (MAP_HEIGHT - p.size / 2)
              (p.y + p.target_y / Real.sqrt (p.target_x ^ 2 + p.target_y ^ 2)
                * speed_of p.size))) := by
  refine ⟨?_, ?_, ?_, ?_⟩
  · intro h
    have hl : 0 < Real.log (1 + p.size / INITIAL_PLAYER_SIZE) := by
      refine Real.log_pos ?_
      unfold INITIAL_PLAYER_SIZE
      have : 0 < p.size / 20 := div_pos h (by norm_num)
      linarith
    unfold speed_of PLAYER_SPEED_FACTOR
    apply div_pos (by norm_num)
    linarith
  · intro h
    have h' : ¬ (Real.sqrt (p.target_x ^ 2 + p.target_y ^ 2) > 1) := not_lt.mpr h
    constructor <;> simp [movePlayer, h']
  · intro h hx1 hx2 hy1 hy2
    have h' : ¬ (Real.sqrt (p.target_x ^ 2 + p.target_y ^ 2) > 1) := not_lt.mpr h
    constructor <;> simp [movePlayer, h']
    · rw [min_eq_right hx2, max_eq_right hx1]
    · rw [min_eq_right hy2, max_eq_right hy1]
  · intro h
    constructor <;> simp [movePlayer, h]

/-- Claim C2 witness: the size-20 player `pMove` with intent (10, 0) — the
intent magnitude is 10, so the direction is normalized and the position is
updated by the clamped normalized step; its speed is positive. -/
theorem claim_C2_witness :
    0 < speed_of pMove.size
      ∧ (movePlayer pMove).x = max (pMove.size / 2) (min (MAP_WIDTH - pMove.size / 2)
          (pMove.x + pMove.target_x / Real.sqrt (pMove.target_x ^ 2 + pMove.target_y ^ 2)
            * speed_of pMove.size))
      ∧ (movePlayer pMove).y = max (pMove.size / 2) (min (MAP_HEIGHT - pMove.size / 2)
          (pMove.y + pMove.target_y / Real.sqrt (pMove.target_x ^ 2 + pMove.target_y ^ 2)
            * speed_of pMove.size)) := by
  have hsum : pMove.target_x ^ 2 + pMove.target_y ^ 2 = (100 : ℝ) := by
    norm_num [pMove]
  have hm : 1 < Real.sqrt (pMove.target_x ^ 2 + pMove.target_y ^ 2) := by
    rw [hsum, sqrt_one_hundred]
    norm_num
  have h := claim_C2 pMove
  exact ⟨h.1 (by norm_num [pMove]), (h.2.2.2 hm).1, (h.2.2.2 hm).2⟩

theorem foodInner_eaten_subset : ∀ (fs : List Pellet) (px py radius s : ℝ) (i : ℕ)
    (eaten : List ℕ), eaten ⊆ (foodInner px py radius s i fs eaten).2
  | [], px, py, radius, s, i, eaten => by simp [foodInner]
  | f :: rest, px, py, radius, s, i, eaten => by
    by_cases h1 : i ∈ eaten
    · simp only [foodInner, if_pos h1]
      exact foodInner_eaten_subset rest px py radius s (i + 1) eaten
    · by_cases h2 : get_distance px py f.x f.y < radius - f.size / 3
      · simp only [foodInner, if_neg h1, if_pos h2]
        exact fun a ha => foodInner_eaten_subset rest px py radius (s + f.size * 0.2)
          (i + 1) (i :: eaten) (List.mem_cons_of_mem i ha)
      · simp only [foodInner, if_neg h1, if_neg h2]
        exact foodInner_eaten_subset rest px py radius s (i + 1) eaten

theorem foodInner_nodup : ∀ (fs : List Pellet) (px py radius s : ℝ) (i : ℕ)
    (eaten : List ℕ), eaten.Nodup → (foodInner px py radius s i fs eaten).2.Nodup
  | [], px, py, radius, s, i, eaten, hn => by simpa [foodInner] using hn
  | f :: rest, px, py, radius, s, i, eaten, hn => by
    by_cases h1 : i ∈ eaten
    · simp only [foodInner, if_pos h1]
      exact foodInner_nodup rest px py radius s (i + 1) eaten hn
    · by_cases h2 : get_distance px py f.x f.y < radius - f.size / 3
      · simp only [foodInner, if_neg h1, if_pos h2]
        exact foodInner_nodup rest px py radius (s + f.size * 0.2) (i + 1) (i :: eaten)
          (List.nodup_cons.mpr ⟨h1, hn⟩)
      · simp only [foodInner, if_neg h1, if_neg h2]
        exact foodInner_nodup rest px py radius s (i + 1) eaten hn

theorem eatFoodStage_eaten_subset : ∀ (ps : List Player) (food : List Pellet)
    (eaten : List ℕ), eaten ⊆ (eatFoodStage ps food eaten).2
  | [], food, eaten => by simp [eatFoodStage]
  | p :: rest, food, eaten => by
    simp only [eatFoodStage]
    exact List.Subset.trans
      (foodInner_eaten_subset food p.x p.y (p.size / 2) p.size 0 eaten)
      (eatFoodStage_eaten_subset rest food _)

theorem eatFoodStage_nodup : ∀ (ps : List Player) (food : List Pellet)
    (eaten : List ℕ), eaten.Nodup → (eatFoodStage ps food eaten).2.Nodup
  | [], food, eaten, hn => by simpa [eatFoodStage] using hn
  | p :: rest, food, eaten, hn => by
    simp only [eatFoodStage]
    exact eatFoodStage_nodup rest food _
      (foodInner_nodup food p.x p.y (p.size / 2) p.size 0 eaten hn)

/-- Claim C3: food consumption — a pellet not yet marked eaten is eaten exactly
when `d < playerRadius - pelletSize/3` (with `playerRadius` the player's radius
frozen at the start of its scan), eating adds `pelletSize × 0.2` to the
player's size, an already-marked pellet is skipped, marks persist for the rest
of the tick, and no pellet index is ever marked twice (first-claimant-wins). -/
theorem claim_C3 (px py radius s : ℝ) (i : ℕ) (f : Pellet) (fs food : List Pellet)
    (eaten : List ℕ) (p : Player) (ps : List Player) :
    (i ∉ eaten → get_distance px py f.x f.y < radius - f.size / 3 →
        foodInner px py radius s i (f :: fs) eaten
          = foodInner px py radius (s + f.size * 0.2) (i + 1) fs (i :: eaten))
      ∧ (i ∉ eaten → ¬ get_distance px py f.x f.y < radius - f.size / 3 →
        foodInner px py radius s i (f :: fs) eaten
          = foodInner px py radius s (i + 1) fs eaten)
      ∧ (i ∈ eaten →
        foodInner px py radius s i (f :: fs) eaten
          = foodInner px py radius s (i + 1) fs eaten)
      ∧ eatFoodStage (p :: ps) food eaten
          = ({ p with size := (foodInner p.x p.y (p.size / 2) p.size 0 food eaten).1 }
              :: (eatFoodStage ps food
                    (foodInner p.x p.y (p.size / 2) p.size 0 food eaten).2).1,
             (eatFoodStage ps food
                (foodInner p.x p.y (p.size / 2) p.size 0 food eaten).2).2)
      ∧ eaten ⊆ (eatFoodStage ps food eaten).2
      ∧ (eaten.Nodup → (eatFoodStage ps food eaten).2.Nodup) := by
  refine ⟨?_, ?_, ?_, rfl, eatFoodStage_eaten_subset ps food eaten,
    eatFoodStage_nodup ps food eaten⟩
  · intro h1 h2
    simp only [foodInner, if_neg h1, if_pos h2]
  · intro h1 h2
    simp only [foodInner, if_neg h1, if_neg h2]
  · intro h1
    simp only [foodInner, if_pos h1]

/-- Claim C3 witness: the spec's Scenario 1 — a size-20 player at (100,100) and
a size-8 pellet at the same point; the pellet is eaten and the player's size
becomes `20 + 8 × 0.2 = 21.6`. -/
theorem claim_C3_witness :
    foodInner 100 100 10 20 0 [fCenter] []
      = foodInner 100 100 10 (20 + fCenter.size * 0.2) 1 [] [0]
      ∧ foodInner 100 100 10 (20 + fCenter.size * 0.2) 1 [] [0] = (21.6, [0]) := by
  have h := claim_C3 100 100 10 20 0 fCenter [] [fCenter] [] pEdge []
  have hd : get_distance 100 100 fCenter.x fCenter.y = 0 := by
    simp [get_distance, fCenter]
  refine ⟨h.1 (by simp) ?_, ?_⟩
  · rw [hd]
    norm_num [fCenter]
  · simp only [foodInner]
    norm_num [fCenter]


theorem outerEat_nil (removed : List ℕ) : outerEat [] removed = ([], removed) := by
  simp [outerEat]

theorem outerEat_cons_skip (a : Player) (rest : List Player) (removed : List ℕ)
    (h : a.id ∈ removed) :
    outerEat (a :: rest) removed
      = (a :: (outerEat rest removed).1, (outerEat rest removed).2) := by
  rw [outerEat]
  simp [h]

theorem outerEat_cons_go (a : Player) (rest : List Player) (removed : List ℕ)
    (h : a.id ∉ removed) :
    outerEat (a :: rest) removed
      = ((innerEat a rest removed).1
          :: (outerEat (innerEat a rest removed).2.1.1 (innerEat a rest removed).2.2).1,
         (outerEat (innerEat a rest removed).2.1.1 (innerEat a rest removed).2.2).2) := by
  rw [outerEat]
  simp [h]

theorem outer_single (q : Player) : outerEat [q] [] = ([q], []) := by
  rw [outerEat_cons_go q [] [] (by simp)]
  simp [innerEat, outerEat_nil]

theorem playerStage_single (q : Player) : playerStage [q] = [q] := by
  simp [playerStage, outer_single]

theorem move_pEdge : movePlayer pEdge = pEdge := by
  have h' : ¬ (Real.sqrt (pEdge.target_x ^ 2 + pEdge.target_y ^ 2) > 1) := by
    norm_num [pEdge, Real.sqrt_zero]
  simp only [movePlayer, if_neg h', zero_mul, add_zero]
  simp only [pEdge, MAP_WIDTH, MAP_HEIGHT]
  norm_num

theorem eatFood_pEdge : eatFoodStage [pEdge] [fEdge] [] = ([qEdge], [0]) := by
  have h2 : get_distance pEdge.x pEdge.y fEdge.x fEdge.y < pEdge.size / 2 - fEdge.size / 3 := by
    have hd : get_distance pEdge.x pEdge.y fEdge.x fEdge.y = 0 := by
      simp [get_distance, pEdge, fEdge]
    rw [hd]
    norm_num [pEdge, fEdge]
  simp only [eatFoodStage, foodInner, List.not_mem_nil, if_neg, if_pos h2, ite_false]
  simp [pEdge, fEdge, qEdge]

theorem tick_pEdge : (tick [pEdge] [fEdge] fresh0).1 = [qEdge] := by
  simp only [tick, List.map_cons, List.map_nil, move_pEdge, eatFood_pEdge]
  simp [playerStage_single]

/-- Claim C4 counterexample: starting the tick with `pEdge` (size 20 at the
left edge, `x = 10 = size/2`) and the pellet `fEdge` at the same point, the
emitted snapshot contains the player grown to size 21.6 still at `x = 10`,
violating `x ≥ size/2 = 10.8`. -/
theorem claim_C4_counterexample :
    (tick [pEdge] [fEdge] fresh0).1 = [qEdge] ∧ ¬ inBounds qEdge := by
  refine ⟨tick_pEdge, ?_⟩
  intro h
  unfold inBounds at h
  obtain ⟨h1, -⟩ := h
  norm_num [qEdge] at h1

/-- Claim C4 (amended): the bounds invariant holds at the end of the movement
stage, with respect to the size the player has at that moment (for any size at
most the map dimension); growth later in the same tick (food or player
consumption) is applied without re-clamping, so an emitted snapshot may show a
player with `position.x < size/2`. -/
theorem claim_C4 (p : Player) (hw : p.size ≤ MAP_WIDTH) (hh : p.size ≤ MAP_HEIGHT) :
    (movePlayer p).size = p.size
      ∧ p.size / 2 ≤ (movePlayer p).x ∧ (movePlayer p).x ≤ MAP_WIDTH - p.size / 2
      ∧ p.size / 2 ≤ (movePlayer p).y ∧ (movePlayer p).y ≤ MAP_HEIGHT - p.size / 2 := by
  refine ⟨rfl, ?_, ?_, ?_, ?_⟩
  · simp only [movePlayer]
    exact le_max_left _ _
  · simp only [movePlayer]
    exact max_le (by linarith) (min_le_left _ _)
  · simp only [movePlayer]
    exact le_max_left _ _
  · simp only [movePlayer]
    exact max_le (by linarith) (min_le_left _ _)

/-- Claim C4 witness: the movement stage keeps the size-20 player `pMove`
within `[10, 1990]` on both axes. -/
theorem claim_C4_witness :
    (movePlayer pMove).size = pMove.size
      ∧ pMove.size / 2 ≤ (movePlayer pMove).x
      ∧ (movePlayer pMove).x ≤ MAP_WIDTH - pMove.size / 2
      ∧ pMove.size / 2 ≤ (movePlayer pMove).y
      ∧ (movePlayer pMove).y ≤ MAP_HEIGHT - pMove.size / 2 :=
  claim_C4 pMove (by norm_num [pMove, MAP_WIDTH]) (by norm_num [pMove, MAP_HEIGHT])

theorem gen_food_len (fresh : ℕ → Pellet) (food : List Pellet) (eaten : List ℕ)
    (h : food.length ≤ FOOD_COUNT) :
    (generate_food fresh (removeEatenFood food eaten)).length = FOOD_COUNT := by
  have hle : (removeEatenFood food eaten).length ≤ FOOD_COUNT := by
    calc (removeEatenFood food eaten).length
        ≤ food.enum.length := by
          simp only [removeEatenFood, List.length_map]
          exact List.length_filter_le _ _
      _ = food.length := List.enum_length
      _ ≤ FOOD_COUNT := h
  simp only [generate_food, List.length_append, List.length_map, List.length_range]
  omega

/-- Claim C6: food conservation — after removing the eaten pellets,
`generate_food` appends exactly `FOOD_COUNT - live` pellets, restoring the
live count to exactly `FOOD_COUNT`; in particular in any tick in which at
least one pellet was eaten, the snapshot's food list has length `FOOD_COUNT`. -/
theorem claim_C6 (food : List Pellet) (eaten : List ℕ) (fresh : ℕ → Pellet)
    (ps : List Player) (h : food.length ≤ FOOD_COUNT) :
    (generate_food fresh (removeEatenFood food eaten)).length = FOOD_COUNT
      ∧ generate_food fresh (removeEatenFood food eaten)
          = removeEatenFood food eaten
            ++ (List.range (FOOD_COUNT - (removeEatenFood food eaten).length)).map fresh
      ∧ ((eatFoodStage (ps.map movePlayer) food []).2 ≠ [] →
          (tick ps food fresh).2.length = FOOD_COUNT) := by
  refine ⟨gen_food_len fresh food eaten h, rfl, ?_⟩
  intro hne
  simp only [tick]
  rw [if_pos hne]
  exact gen_food_len fresh food _ h

/-- Claim C6 witness: in the `pEdge`/`fEdge` tick one pellet is eaten, and the
snapshot's food list is restored to exactly `FOOD_COUNT = 150` pellets. -/
theorem claim_C6_witness :
    (generate_food fresh0 (removeEatenFood [fEdge] [0])).length = FOOD_COUNT
      ∧ (tick [pEdge] [fEdge] fresh0).2.length = FOOD_COUNT := by
  have h := claim_C6 [fEdge] [0] fresh0 [pEdge] (by norm_num [FOOD_COUNT])
  refine ⟨h.1, h.2.2 ?_⟩
  rw [show ([pEdge].map movePlayer) = [pEdge] by simp [move_pEdge], eatFood_pEdge]
  simp


theorem innerEat_nil (a : Player) (removed : List ℕ) :
    innerEat a [] removed = (a, ⟨[], rfl⟩, removed) := rfl

theorem innerEat_skip (a b : Player) (rest : List Player) (removed : List ℕ)
    (h : b.id ∈ removed) :
    (innerEat a (b :: rest) removed).1 = (innerEat a rest removed).1
      ∧ (innerEat a (b :: rest) removed).2.1.1 = b :: (innerEat a rest removed).2.1.1
      ∧ (innerEat a (b :: rest) removed).2.2 = (innerEat a rest removed).2.2 := by
  refine ⟨?_, ?_, ?_⟩ <;> simp only [innerEat, if_pos h]

theorem innerEat_eat (a b : Player) (rest : List Player) (removed : List ℕ)
    (h1 : b.id ∉ removed) (h2 : consumes a b) :
    (innerEat a (b :: rest) removed).1
        = (innerEat { a with size := a.size + b.size } rest (b.id :: removed)).1
      ∧ (innerEat a (b :: rest) removed).2.1.1
        = b :: (innerEat { a with size := a.size + b.size } rest (b.id :: removed)).2.1.1
      ∧ (innerEat a (b :: rest) removed).2.2
        = (innerEat { a with size := a.size + b.size } rest (b.id :: removed)).2.2 := by
  refine ⟨?_, ?_, ?_⟩ <;> simp only [innerEat, if_neg h1, if_pos h2]

theorem innerEat_break (a b : Player) (rest : List Player) (removed : List ℕ)
    (h1 : b.id ∉ removed) (h2 : ¬ consumes a b) (h3 : consumes b a) :
    (innerEat a (b :: rest) removed).1 = a
      ∧ (innerEat a (b :: rest) removed).2.1.1 = { b with size := b.size + a.size } :: rest
      ∧ (innerEat a (b :: rest) removed).2.2 = a.id :: removed := by
  refine ⟨?_, ?_, ?_⟩ <;> simp only [innerEat, if_neg h1, if_neg h2, if_pos h3]

theorem innerEat_pass (a b : Player) (rest : List Player) (removed : List ℕ)
    (h1 : b.id ∉ removed) (h2 : ¬ consumes a b) (h3 : ¬ consumes b a) :
    (innerEat a (b :: rest) removed).1 = (innerEat a rest removed).1
      ∧ (innerEat a (b :: rest) removed).2.1.1 = b :: (innerEat a rest removed).2.1.1
      ∧ (innerEat a (b :: rest) removed).2.2 = (innerEat a rest removed).2.2 := by
  refine ⟨?_, ?_, ?_⟩ <;> simp only [innerEat, if_neg h1, if_neg h2, if_neg h3]

open Classical in
theorem outerEat_pair (a b : Player) (hab : a.id ≠ b.id) :
    outerEat [a, b] []
      = (if consumes a b then ([{ a with size := a.size + b.size }, b], [b.id])
         else if consumes b a then ([a, { b with size := b.size + a.size }], [a.id])
         else ([a, b], [])) := by
  rw [outerEat_cons_go a [b] [] (List.not_mem_nil _)]
  by_cases h1 : consumes a b
  · rw [if_pos h1]
    obtain ⟨e1, e2, e3⟩ := innerEat_eat a b [] [] (List.not_mem_nil _) h1
    rw [e1, e2, e3, innerEat_nil]
    rw [outerEat_cons_skip _ [] [b.id] (List.mem_singleton_self _), outerEat_nil]
  · rw [if_neg h1]
    by_cases h2 : consumes b a
    · rw [if_pos h2]
      obtain ⟨e1, e2, e3⟩ := innerEat_break a b [] [] (List.not_mem_nil _) h1 h2
      rw [e1, e2, e3]
      rw [outerEat_cons_go _ [] [a.id] (by simpa using hab.symm), innerEat_nil,
        outerEat_nil]
    · rw [if_neg h2]
      obtain ⟨e1, e2, e3⟩ := innerEat_pass a b [] [] (List.not_mem_nil _) h1 h2
      rw [e1, e2, e3, innerEat_nil]
      rw [outerEat_cons_go _ [] [] (List.not_mem_nil _), innerEat_nil, outerEat_nil]

/-- Claim C1: player consumption — on a pair evaluation with live `b`, `a`
consumes `b` exactly when `d < radiusA - radiusB × 0.8` and
`sizeA > sizeB × EAT_RATIO`; on consumption `a`'s size becomes exactly
`sizeA + sizeB`, `b` is marked removed, `a`'s grown value is the one used for
all remaining comparisons of the pass (chain consumption), and marked players
are absent from the store after removal application. -/
theorem claim_C1 (a b : Player) (rest ps : List Player) (removed : List ℕ)
    (q : Player) (hab : a.id ≠ b.id) :
    (b.id ∉ removed → consumes a b →
        (innerEat a (b :: rest) removed).1
            = (innerEat { a with size := a.size + b.size } rest (b.id :: removed)).1
          ∧ (innerEat a (b :: rest) removed).2.1.1
            = b :: (innerEat { a with size := a.size + b.size } rest
                (b.id :: removed)).2.1.1
          ∧ (innerEat a (b :: rest) removed).2.2
            = (innerEat { a with size := a.size + b.size } rest (b.id :: removed)).2.2)
      ∧ (b.id ∉ removed → ¬ consumes a b → ¬ consumes b a →
          (innerEat a (b :: rest) removed).1 = (innerEat a rest removed).1
            ∧ (innerEat a (b :: rest) removed).2.1.1 = b :: (innerEat a rest removed).2.1.1
            ∧ (innerEat a (b :: rest) removed).2.2 = (innerEat a rest removed).2.2)
      ∧ (b.id ∈ (outerEat [a, b] []).2 ↔ consumes a b)
      ∧ (consumes a b → playerStage [a, b] = [{ a with size := a.size + b.size }])
      ∧ (q ∈ playerStage ps → q.id ∉ (outerEat ps []).2) := by
  refine ⟨innerEat_eat a b rest removed, innerEat_pass a b rest removed, ?_, ?_, ?_⟩
  · rw [outerEat_pair a b hab]
    by_cases h1 : consumes a b
    · simp [h1]
    · by_cases h2 : consumes b a
      · simp [h1, h2, hab.symm]
      · simp [h1, h2]
  · intro h
    simp only [playerStage, outerEat_pair a b hab, if_pos h]
    simp [hab]
  · intro hq
    simp only [playerStage] at hq
    exact of_decide_eq_true (List.mem_filter.mp hq).2

/-- Claim C1 witness: the spec's Scenario 2 — `pA` (size 100 at (100,100)) and
`pB` (size 50 at (120,100), distance 20): `pA` eats `pB`, ends with size 150,
and `pB` is marked removed and absent from the post-removal store. -/
theorem claim_C1_witness :
    playerStage [pA, pB] = [{ pA with size := pA.size + pB.size }]
      ∧ pB.id ∈ (outerEat [pA, pB] []).2
      ∧ ({ pA with size := pA.size + pB.size } : Player).id ∉ (outerEat [pA, pB] []).2 := by
  have hab : pA.id ≠ pB.id := by simp [pA, pB]
  have hc : consumes pA pB := by
    constructor
    · have hd : get_distance pA.x pA.y pB.x pB.y = 20 := by
        simp only [get_distance, pA, pB]
        norm_num
        exact sqrt_four_hundred
      rw [hd]
      norm_num [pA, pB]
    · norm_num [pA, pB, EAT_RATIO]
  have h := claim_C1 pA pB [] [pA, pB] [] { pA with size := pA.size + pB.size } hab
  refine ⟨h.2.2.2.1 hc, h.2.2.1.mpr hc, h.2.2.2.2 ?_⟩
  rw [h.2.2.2.1 hc]
  exact List.mem_singleton_self _

theorem innerEat_len (a : Player) (rest : List Player) (removed : List ℕ) :
    (innerEat a rest removed).2.1.1.length = rest.length :=
  (innerEat a rest removed).2.1.2

theorem innerEat_ids : ∀ (rest : List Player) (a : Player) (removed : List ℕ),
    (innerEat a rest removed).2.1.1.map (fun p => p.id) = rest.map (fun p => p.id)
      ∧ (innerEat a rest removed).1.id = a.id
  | [], a, removed => by rw [innerEat_nil]; exact ⟨rfl, rfl⟩
  | b :: rest0, a, removed => by
    by_cases h1 : b.id ∈ removed
    · obtain ⟨e1, e2, e3⟩ := innerEat_skip a b rest0 removed h1
      obtain ⟨ih1, ih2⟩ := innerEat_ids rest0 a removed
      rw [e1, e2, List.map_cons, ih1, ih2]
      exact ⟨rfl, rfl⟩
    · by_cases h2 : consumes a b
      · obtain ⟨e1, e2, e3⟩ := innerEat_eat a b rest0 removed h1 h2
        obtain ⟨ih1, ih2⟩ :=
          innerEat_ids rest0 { a with size := a.size + b.size } (b.id :: removed)
        rw [e1, e2, List.map_cons, ih1, ih2]
        exact ⟨rfl, rfl⟩
      · by_cases h3 : consumes b a
        · obtain ⟨e1, e2, e3⟩ := innerEat_break a b rest0 removed h1 h2 h3
          rw [e1, e2, List.map_cons]
          exact ⟨rfl, rfl⟩
        · obtain ⟨e1, e2, e3⟩ := innerEat_pass a b rest0 removed h1 h2 h3
          obtain ⟨ih1, ih2⟩ := innerEat_ids rest0 a removed
          rw [e1, e2, List.map_cons, ih1, ih2]
          exact ⟨rfl, rfl⟩

theorem innerEat_removed_nodup : ∀ (rest : List Player) (a : Player) (removed : List ℕ),
    removed.Nodup → a.id ∉ removed → a.id ∉ rest.map (fun p => p.id) →
    (innerEat a rest removed).2.2.Nodup
  | [], a, removed, hrem, _, _ => by rw [innerEat_nil]; exact hrem
  | b :: rest0, a, removed, hrem, ha, hrest => by
    have hane : a.id ≠ b.id := fun h => hrest (by rw [List.map_cons, h]; exact List.mem_cons_self _ _)
    have hrest0 : a.id ∉ rest0.map (fun p => p.id) := fun h =>
      hrest (by rw [List.map_cons]; exact List.mem_cons_of_mem _ h)
    by_cases h1 : b.id ∈ removed
    · rw [(innerEat_skip a b rest0 removed h1).2.2]
      exact innerEat_removed_nodup rest0 a removed hrem ha hrest0
    · by_cases h2 : consumes a b
      · rw [(innerEat_eat a b rest0 removed h1 h2).2.2]
        exact innerEat_removed_nodup rest0 { a with size := a.size + b.size }
          (b.id :: removed) (List.nodup_cons.mpr ⟨h1, hrem⟩)
          (by simp [hane, ha]) hrest0
      · by_cases h3 : consumes b a
        · rw [(innerEat_break a b rest0 removed h1 h2 h3).2.2]
          exact List.nodup_cons.mpr ⟨ha, hrem⟩
        · rw [(innerEat_pass a b rest0 removed h1 h2 h3).2.2]
          exact innerEat_removed_nodup rest0 a removed hrem ha hrest0

theorem outerEat_removed_nodup : ∀ (n : ℕ) (ps : List Player) (removed : List ℕ),
    ps.length ≤ n → removed.Nodup → (ps.map (fun p => p.id)).Nodup →
    (outerEat ps removed).2.Nodup
  | _, [], removed, _, hrem, _ => by rw [outerEat_nil]; exact hrem
  | 0, a :: rest, _, hlen, _, _ => by simp at hlen
  | n + 1, a :: rest, removed, hlen, hrem, hids => by
    have hlen0 : rest.length ≤ n := by
      simp only [List.length_cons] at hlen
      omega
    have htail : (rest.map (fun p => p.id)).Nodup := by
      rw [List.map_cons] at hids
      exact (List.nodup_cons.mp hids).2
    have hhead : a.id ∉ rest.map (fun p => p.id) := by
      rw [List.map_cons] at hids
      exact (List.nodup_cons.mp hids).1
    by_cases h : a.id ∈ removed
    · rw [outerEat_cons_skip a rest removed h]
      exact outerEat_removed_nodup n rest removed hlen0 hrem htail
    · rw [outerEat_cons_go a rest removed h]
      refine outerEat_removed_nodup n (innerEat a rest removed).2.1.1
        (innerEat a rest removed).2.2 ?_ ?_ ?_
      · rw [innerEat_len]; exact hlen0
      · exact innerEat_removed_nodup rest a removed hrem h hhead
      · rw [(innerEat_ids rest a removed).1]; exact htail

/-- Claim C10: within one pass, the two directions of a pair check are
mutually exclusive for positive sizes, a player marked removed is skipped both
as target (inner loop) and as consumer (outer loop) for the rest of the pass,
and the removal set never records the same id twice, so each removed player's
size was added to exactly one consumer. -/
theorem claim_C10 (a b : Player) (rest ps : List Player) (removed : List ℕ) :
    (0 < a.size → 0 < b.size → ¬ (consumes a b ∧ consumes b a))
      ∧ (b.id ∈ removed →
          (innerEat a (b :: rest) removed).1 = (innerEat a rest removed).1
            ∧ (innerEat a (b :: rest) removed).2.1.1 = b :: (innerEat a rest removed).2.1.1
            ∧ (innerEat a (b :: rest) removed).2.2 = (innerEat a rest removed).2.2)
      ∧ (a.id ∈ removed →
          outerEat (a :: ps) removed
            = (a :: (outerEat ps removed).1, (outerEat ps removed).2))
      ∧ (removed.Nodup → (ps.map (fun p => p.id)).Nodup →
          (outerEat ps removed).2.Nodup) := by
  refine ⟨?_, innerEat_skip a b rest removed, outerEat_cons_skip a ps removed, ?_⟩
  · intro ha _ hboth
    obtain ⟨⟨_, h1⟩, ⟨_, h2⟩⟩ := hboth
    simp only [ EAT_RATIO] at h1 h2
    linarith
  · intro h1 h2
    exact outerEat_removed_nodup ps.length ps removed le_rfl h1 h2

/-- Claim C10 witness: for `pA`, `pB` (both of positive size) the pair check is
exclusive; with removal set `[1, 2]` both players are skipped, and the pass
output removal set for `[pB]` is duplicate-free. -/
theorem claim_C10_witness :
    (¬ (consumes pA pB ∧ consumes pB pA))
      ∧ ((innerEat pA [pB] [1, 2]).1 = (innerEat pA [] [1, 2]).1
          ∧ (innerEat pA [pB] [1, 2]).2.1.1 = pB :: (innerEat pA [] [1, 2]).2.1.1
          ∧ (innerEat pA [pB] [1, 2]).2.2 = (innerEat pA [] [1, 2]).2.2)
      ∧ (outerEat (pA :: [pB]) [1, 2]
          = (pA :: (outerEat [pB] [1, 2]).1, (outerEat [pB] [1, 2]).2))
      ∧ (outerEat [pB] [1, 2]).2.Nodup := by
  have h := claim_C10 pA pB [] [pB] [1, 2]
  refine ⟨h.1 (by norm_num [pA]) (by norm_num [pB]), h.2.1 (by simp [pB]),
    h.2.2.1 (by simp [pA]), h.2.2.2 (by simp) (by simp [pB])⟩


theorem forall2_sizeRel_trans {l1 l2 l3 : List Player}
    (h1 : List.Forall₂ sizeRel l1 l2) (h2 : List.Forall₂ sizeRel l2 l3) :
    List.Forall₂ sizeRel l1 l3 := by
  induction h1 generalizing l3 with
  | nil =>
    cases h2
    exact List.Forall₂.nil
  | cons hab hrest ih =>
    cases h2 with
    | cons hbc hrest2 =>
      exact List.Forall₂.cons ⟨hab.1.trans hbc.1, hab.2.trans hbc.2⟩ (ih hrest2)

theorem forall2_sizeRel_mem_right {l1 l2 : List Player}
    (h : List.Forall₂ sizeRel l1 l2) {q : Player} (hq : q ∈ l2) :
    ∃ p ∈ l1, sizeRel p q := by
  induction h with
  | nil => cases hq
  | cons hab hrest ih =>
    rcases List.mem_cons.mp hq with rfl | hq2
    · exact ⟨_, List.mem_cons_self _ _, hab⟩
    · rcases ih hq2 with ⟨p, hp, hr⟩
      exact ⟨p, List.mem_cons_of_mem _ hp, hr⟩

theorem forall2_map_move (ps : List Player) :
    List.Forall₂ sizeRel ps (ps.map movePlayer) := by
  induction ps with
  | nil => exact List.Forall₂.nil
  | cons p rest ih => exact List.Forall₂.cons ⟨rfl, le_rfl⟩ ih

theorem foodInner_size_le : ∀ (fs : List Pellet) (px py radius s : ℝ) (i : ℕ)
    (eaten : List ℕ), (∀ f ∈ fs, 0 ≤ f.size) →
    s ≤ (foodInner px py radius s i fs eaten).1
  | [], px, py, radius, s, i, eaten, _ => by simp [foodInner]
  | f :: rest, px, py, radius, s, i, eaten, hf => by
    have hfr : ∀ g ∈ rest, 0 ≤ g.size := fun g hg => hf g (List.mem_cons_of_mem f hg)
    by_cases h1 : i ∈ eaten
    · simp only [foodInner, if_pos h1]
      exact foodInner_size_le rest px py radius s (i + 1) eaten hfr
    · by_cases h2 : get_distance px py f.x f.y < radius - f.size / 3
      · simp only [foodInner, if_neg h1, if_pos h2]
        refine le_trans ?_
          (foodInner_size_le rest px py radius (s + f.size * 0.2) (i + 1) (i :: eaten) hfr)
        have : 0 ≤ f.size * 0.2 :=
          mul_nonneg (hf f (List.mem_cons_self f rest)) (by norm_num)
        linarith
      · simp only [foodInner, if_neg h1, if_neg h2]
        exact foodInner_size_le rest px py radius s (i + 1) eaten hfr

theorem eatFoodStage_rel : ∀ (ps : List Player) (food : List Pellet) (eaten : List ℕ),
    (∀ f ∈ food, 0 ≤ f.size) →
    List.Forall₂ sizeRel ps (eatFoodStage ps food eaten).1
  | [], food, eaten, _ => List.Forall₂.nil
  | p :: rest, food, eaten, hf => by
    simp only [eatFoodStage]
    exact List.Forall₂.cons
      ⟨rfl, foodInner_size_le food p.x p.y (p.size / 2) p.size 0 eaten hf⟩
      (eatFoodStage_rel rest food _ hf)

theorem innerEat_rel : ∀ (rest : List Player) (a : Player) (removed : List ℕ),
    0 ≤ a.size → (∀ b ∈ rest, 0 ≤ b.size) →
    (a.id = (innerEat a rest removed).1.id ∧ a.size ≤ (innerEat a rest removed).1.size)
      ∧ List.Forall₂ sizeRel rest (innerEat a rest removed).2.1.1
  | [], a, removed, _, _ => by
    rw [innerEat_nil]
    exact ⟨⟨rfl, le_rfl⟩, List.Forall₂.nil⟩
  | b :: rest0, a, removed, ha, hrest => by
    have hb : 0 ≤ b.size := hrest b (List.mem_cons_self b rest0)
    have hrest0 : ∀ c ∈ rest0, 0 ≤ c.size := fun c hc =>
      hrest c (List.mem_cons_of_mem b hc)
    by_cases h1 : b.id ∈ removed
    · obtain ⟨e1, e2, e3⟩ := innerEat_skip a b rest0 removed h1
      obtain ⟨iha, ihrest⟩ := innerEat_rel rest0 a removed ha hrest0
      rw [e1, e2]
      exact ⟨iha, List.Forall₂.cons ⟨rfl, le_rfl⟩ ihrest⟩
    · by_cases h2 : consumes a b
      · obtain ⟨e1, e2, e3⟩ := innerEat_eat a b rest0 removed h1 h2
        obtain ⟨iha, ihrest⟩ := innerEat_rel rest0 { a with size := a.size + b.size }
          (b.id :: removed) (by simpa using add_nonneg ha hb) hrest0
        rw [e1, e2]
        refine ⟨⟨iha.1, ?_⟩, List.Forall₂.cons ⟨rfl, le_rfl⟩ ihrest⟩
        refine le_trans ?_ iha.2
        simp only
        linarith
      · by_cases h3 : consumes b a
        · obtain ⟨e1, e2, e3⟩ := innerEat_break a b rest0 removed h1 h2 h3
          rw [e1, e2]
          refine ⟨⟨rfl, le_rfl⟩, List.Forall₂.cons ⟨rfl, by simp only; linarith⟩ ?_⟩
          exact List.forall₂_same.mpr fun x _ => ⟨rfl, le_rfl⟩
        · obtain ⟨e1, e2, e3⟩ := innerEat_pass a b rest0 removed h1 h2 h3
          obtain ⟨iha, ihrest⟩ := innerEat_rel rest0 a removed ha hrest0
          rw [e1, e2]
          exact ⟨iha, List.Forall₂.cons ⟨rfl, le_rfl⟩ ihrest⟩

theorem outerEat_rel : ∀ (n : ℕ) (ps : List Player) (removed : List ℕ),
    ps.length ≤ n → (∀ p ∈ ps, 0 ≤ p.size) →
    List.Forall₂ sizeRel ps (outerEat ps removed).1
  | _, [], removed, _, _ => by
    rw [outerEat_nil]
    exact List.Forall₂.nil
  | 0, a :: rest, _, hlen, _ => by simp at hlen
  | n + 1, a :: rest, removed, hlen, hps => by
    have hlen0 : rest.length ≤ n := by
      simp only [List.length_cons] at hlen
      omega
    have ha : 0 ≤ a.size := hps a (List.mem_cons_self a rest)
    have hrest : ∀ p ∈ rest, 0 ≤ p.size := fun p hp => hps p (List.mem_cons_of_mem a hp)
    by_cases h : a.id ∈ removed
    · rw [outerEat_cons_skip a rest removed h]
      exact List.Forall₂.cons ⟨rfl, le_rfl⟩ (outerEat_rel n rest removed hlen0 hrest)
    · rw [outerEat_cons_go a rest removed h]
      obtain ⟨hw, hrel⟩ := innerEat_rel rest a removed ha hrest
      have hsz : ∀ q ∈ (innerEat a rest removed).2.1.1, 0 ≤ q.size := by
        intro q hq
        obtain ⟨p, hp, hr⟩ := forall2_sizeRel_mem_right hrel hq
        exact (hrest p hp).trans hr.2
      have ih := outerEat_rel n (innerEat a rest removed).2.1.1
        (innerEat a rest removed).2.2 (by rw [innerEat_len]; exact hlen0) hsz
      exact List.Forall₂.cons hw (forall2_sizeRel_trans hrel ih)

/-- Claim C5 (amended): within the tick loop, no stage (movement, food
consumption, player consumption) ever decreases a live player's size, the
size stays strictly positive, and `move`/`disconnect` commands do not change
sizes; however a `join` command for an already-live session replaces the
player, resetting its size to `INITIAL_PLAYER_SIZE` (a decrease whenever the
player had grown — see the counterexample). -/
theorem claim_C5 (ps : List Player) (food : List Pellet) (fresh : ℕ → Pellet)
    (sid : ℕ) (dx dy : ℝ) (nf : Option (List Char)) (rx ry : ℝ) (c : ℕ) :
    ((∀ p ∈ ps, 0 < p.size) → (∀ f ∈ food, 0 ≤ f.size) →
        ∀ q ∈ (tick ps food fresh).1, ∃ p ∈ ps, p.id = q.id ∧ p.size ≤ q.size ∧ 0 < q.size)
      ∧ (handle_player_move ps sid dx dy).map (fun p => p.size) = ps.map (fun p => p.size)
      ∧ (∀ q ∈ (handle_disconnect ps sid).1, q ∈ ps)
      ∧ 0 < INITIAL_PLAYER_SIZE
      ∧ (join_player sid nf rx ry c).size = INITIAL_PLAYER_SIZE := by
  refine ⟨?_, ?_, ?_, by norm_num [INITIAL_PLAYER_SIZE], rfl⟩
  · intro hp hf q hq
    simp only [tick, playerStage] at hq
    have hq2 : q ∈ (outerEat (eatFoodStage (ps.map movePlayer) food []).1 []).1 :=
      List.mem_of_mem_filter hq
    have rel1 : List.Forall₂ sizeRel ps (ps.map movePlayer) := forall2_map_move ps
    have rel2 : List.Forall₂ sizeRel (ps.map movePlayer)
        (eatFoodStage (ps.map movePlayer) food []).1 :=
      eatFoodStage_rel (ps.map movePlayer) food [] hf
    have rel12 := forall2_sizeRel_trans rel1 rel2
    have hsz : ∀ r ∈ (eatFoodStage (ps.map movePlayer) food []).1, 0 ≤ r.size := by
      intro r hr
      obtain ⟨p, hpm, hrel⟩ := forall2_sizeRel_mem_right rel12 hr
      exact (le_of_lt (hp p hpm)).trans hrel.2
    have rel3 := outerEat_rel (eatFoodStage (ps.map movePlayer) food []).1.length
      (eatFoodStage (ps.map movePlayer) food []).1 [] le_rfl hsz
    obtain ⟨p, hpm, hrel⟩ :=
      forall2_sizeRel_mem_right (forall2_sizeRel_trans rel12 rel3) hq2
    exact ⟨p, hpm, hrel.1, hrel.2, lt_of_lt_of_le (hp p hpm) hrel.2⟩
  · simp only [handle_player_move, List.map_map]
    refine List.map_congr_left ?_
    intro p _
    by_cases h : p.id = sid <;> simp [h]
  · intro q hq
    exact List.mem_of_mem_filter hq

/-- Claim C5 witness: across the `pEdge`/`fEdge` tick, the surviving player
`qEdge` kept `pEdge`'s id, did not shrink, and has positive size. -/
theorem claim_C5_witness :
    pEdge.id = qEdge.id ∧ pEdge.size ≤ qEdge.size ∧ 0 < qEdge.size := by
  have h := (claim_C5 [pEdge] [fEdge] fresh0 1 0 0 none 0 0 0).1
    (by
      intro p hp
      rw [List.mem_singleton] at hp
      subst hp
      norm_num [pEdge])
    (by
      intro f hf
      rw [List.mem_singleton] at hf
      subst hf
      norm_num [fEdge])
    qEdge (by rw [tick_pEdge]; exact List.mem_singleton_self _)
  obtain ⟨p, hp, h1, h2, h3⟩ := h
  rw [List.mem_singleton] at hp
  subst hp
  exact ⟨h1, h2, h3⟩

end
